import Mathlib

/-!
# Verification of the Deno language-server protocol bridge

Shallow embedding of the `Connection` class of the language server
(`src/unnamed/part_000`): the project-loading state machine, the debounced
diagnostics scheduler, the project gatekeeper, and the protocol request
handlers, together with the position codec that the spec describes.

The engine (`ProjectService`, `LanguageService`, `ScriptInfo`, `Project`)
is an external collaborator; it is embedded as records of oracle functions,
and engine-owned mutable state touched by the bridge (the
`languageServiceEnabled` flag, the log) is made explicit in the returned
values.
-/

namespace DenoLsp

/-- Editor-side position: zero-based line and zero-based column
(column counts code units of the document text). -/
structure LspPosition where
  line : Nat
  character : Nat
deriving DecidableEq, Repr

/-- Editor-side range: a start and an end position. -/
structure LspRange where
  start : LspPosition
  stop : LspPosition
deriving DecidableEq, Repr

/-- Engine-side span: absolute offset and length
(`ts.TextSpan`). -/
structure TextSpan where
  start : Nat
  length : Nat
deriving DecidableEq, Repr

/-- `EMPTY_RANGE` of the source: the zero-width range `(0,0)-(0,0)` used for
definitions whose file has no `scriptInfo`. -/
def EMPTY_RANGE : LspRange :=
  { start := { line := 0, character := 0 }, stop := { line := 0, character := 0 } }

/-- The document text is a list of code units; a code unit is either the line
separator or any other character. -/
abbrev DocText := List Char

/-- Modelled from the spec: the `toRange` direction of the Position/Range
Codec (`tsTextSpanToLspRange` of `./utils`, not part of the given sources).
Walks the text and converts an absolute offset into a zero-based
(line, column) pair; offsets past the end clamp to the origin of the suffix
walked so far. -/
def offsetToPos : DocText → Nat → Nat × Nat
  | _, 0 => (0, 0)
  | [], Nat.succ _ => (0, 0)
  | ch :: rest, Nat.succ o =>
    let p := offsetToPos rest o
    if ch = '\n' then (p.1 + 1, p.2)
    else if p.1 = 0 then (0, p.2 + 1)
    else p

/-- Modelled from the spec: the `toOffset` direction of the Position/Range
Codec (`lspPositionToTsPosition` of `./utils`, not part of the given
sources). Given a zero-based (line, column) pair, returns the absolute
offset into the text. -/
def posToOffset : DocText → Nat → Nat → Nat
  | _, 0, c => c
  | [], Nat.succ _, c => c
  | ch :: rest, Nat.succ l, c =>
    if ch = '\n' then 1 + posToOffset rest l c
    else 1 + posToOffset rest (Nat.succ l) c

/-- Engine-owned per-file state backing an open document. -/
structure ScriptInfo where
  fileName : String
  text : DocText

/-- Position codec applied to a script info: editor position to engine
offset. -/
def lspPositionToTsPosition (si : ScriptInfo) (p : LspPosition) : Nat :=
  posToOffset si.text p.line p.character

/-- Position codec applied to a script info: engine span to editor range. -/
def tsTextSpanToLspRange (si : ScriptInfo) (span : TextSpan) : LspRange :=
  { start := { line := (offsetToPos si.text span.start).1,
               character := (offsetToPos si.text span.start).2 },
    stop := { line := (offsetToPos si.text (span.start + span.length)).1,
              character := (offsetToPos si.text (span.start + span.length)).2 } }

/-- Modelled from the spec: a span anchored at an unresolvable script info
maps to the fixed zero-width range at the document origin rather than
failing. -/
def tsTextSpanToLspRangeOpt : Option ScriptInfo → TextSpan → LspRange
  | none, _ => EMPTY_RANGE
  | some si, span => tsTextSpanToLspRange si span

/-- The two script kinds the bridge distinguishes when opening a client
file (`ts.ScriptKind`). -/
inductive ScriptKind where
  | TS
  | External
deriving DecidableEq, Repr

/-- `LanguageTsIds` of the source: the language ids opened with script kind
`TS`. -/
def LanguageTsIds : List String :=
  ["javascript", "javascriptreact", "typescript", "typescriptreact"]

/-- The script-kind classification performed inline by
`onDidOpenTextDocument` (source lines 181-183). -/
def scriptKindFor (languageId : String) : ScriptKind :=
  if LanguageTsIds.contains languageId then ScriptKind.TS else ScriptKind.External

/-- Engine-owned project state read and written by the bridge. -/
structure Project where
  projectName : String
  languageServiceEnabled : Bool
  fileNames : List String
  projectLog : List String

/-- Modelled from the spec: `isDenoProject` of `./utils/deno` (not part of
the given sources) — a lightweight containment check searching the
project's file graph for the designated marker file name. -/
def isDenoProject (project : Project) (marker : String) : Bool :=
  project.fileNames.any (fun f => f == marker || f.endsWith ("/" ++ marker))

/-- Observable outcome of one gatekeeper check: the (possibly updated)
project, the informational messages written to the remote console, and
whether `project.disableLanguageService()` was invoked. -/
structure CheckResult where
  project : Project
  consoleInfos : List String
  disableCalled : Bool

/-- `checkIsDenoProject` (source lines 375-404): if the language service is
already disabled, log and stop; otherwise if the marker file `mod.ts` is not
found, disable the language service and log; otherwise log that the service
is enabled. -/
def checkIsDenoProject (maxProgramSize : Nat) (project : Project) : CheckResult :=
  let DENO_MOD := "mod.ts"
  let projectName := project.projectName
  if !project.languageServiceEnabled then
    let msg := "Language service is already disabled for " ++ projectName ++ ". " ++
      "This could be due to non-TS files that exceeded the size limit (" ++
      toString maxProgramSize ++ " bytes)." ++ "Please check log file for details."
    { project := { project with projectLog := project.projectLog ++ [msg] },
      consoleInfos := [msg],
      disableCalled := false }
  else if !isDenoProject project DENO_MOD then
    let msg := "Disabling language service for " ++ projectName ++
      " because it is not an Deno project " ++
      "('" ++ DENO_MOD ++ "' could not be found). "
    { project := { project with
        languageServiceEnabled := false,
        projectLog := project.projectLog ++ [msg] },
      consoleInfos := [msg],
      disableCalled := true }
  else
    { project := project,
      consoleInfos := ["Enabling language service for " ++ projectName ++ "."],
      disableCalled := false }

/-- An engine diagnostic (`ts.Diagnostic`), reduced to the fields the bridge
reads. -/
structure TsDiagnostic where
  messageText : String
  start : Nat
  length : Nat
deriving DecidableEq, Repr

/-- A protocol diagnostic as produced by the diagnostic codec. -/
structure LspDiagnostic where
  message : String
deriving DecidableEq, Repr

/-- An engine completion entry, reduced to the fields the completion codec
reads. -/
structure CompletionEntry where
  name : String
  kind : String
  sortText : String
deriving DecidableEq, Repr

/-- A protocol completion item as produced by the completion codec. -/
structure CompletionItem where
  label : String
  detail : String
deriving DecidableEq, Repr

/-- Engine completion result (`ts.CompletionInfo`), reduced to its entry
list. -/
structure CompletionInfo where
  entries : List CompletionEntry
deriving DecidableEq, Repr

/-- One defining location returned by the engine
(`ts.DefinitionInfo`). -/
structure DefinitionInfo where
  fileName : String
  textSpan : TextSpan
deriving DecidableEq, Repr

/-- Engine definition result (`ts.DefinitionInfoAndBoundSpan`). -/
structure DefinitionAndBoundSpan where
  textSpan : TextSpan
  definitions : Option (List DefinitionInfo)
deriving DecidableEq, Repr

/-- A protocol `LocationLink`. -/
structure LocationLink where
  originSelectionRange : LspRange
  targetUri : String
  targetRange : LspRange
  targetSelectionRange : LspRange
deriving DecidableEq, Repr

/-- The engine language service, as the record of the query operations the
bridge invokes on it. -/
structure LanguageService where
  getSemanticDiagnostics : String → List TsDiagnostic
  getCompletionsAtPosition : String → Nat → Option CompletionInfo
  getDefinitionAndBoundSpan : String → Nat → Option DefinitionAndBoundSpan

/-- Result of `projectService.openClientFile`: the resolved configuration
file, if any, and the config-file error messages, if the engine reports
them. -/
structure OpenClientFileResult where
  configFileName : Option String
  configFileErrors : Option (List String)

/-- The engine project service, as the record of the lookup operations the
bridge invokes on it. -/
structure ProjectService where
  getScriptInfo : String → Option ScriptInfo
  getDefaultLanguageService : ScriptInfo → Option LanguageService
  openClientFile : String → String → ScriptKind → OpenClientFileResult
  findProject : String → Option Project

/-- A `publishDiagnostics` notification sent over the connection. -/
structure PublishDiagnosticsNotif where
  uri : String
  diagnostics : List LspDiagnostic
deriving DecidableEq, Repr

/-- `sendPendingDiagnostics` (source lines 148-172): for each open file,
resolve its script info and its default language service, skipping the file
when either is missing, and otherwise send one `publishDiagnostics`
notification holding the mapped semantic diagnostics (sent even when the
list is empty). `f2u` is `filePathToUri` and `diagCodec` is
`tsDiagnosticToLspDiagnostic`, both from modules outside the given
sources. -/
def sendPendingDiagnostics (ps : ProjectService) (f2u : String → String)
    (diagCodec : TsDiagnostic → ScriptInfo → LspDiagnostic) :
    List String → List PublishDiagnosticsNotif
  | [] => []
  | fileName :: rest =>
    match ps.getScriptInfo fileName with
    | none => sendPendingDiagnostics ps f2u diagCodec rest
    | some scriptInfo =>
      match ps.getDefaultLanguageService scriptInfo with
      | none => sendPendingDiagnostics ps f2u diagCodec rest
      | some denoLgSrv =>
        { uri := f2u fileName,
          diagnostics := (denoLgSrv.getSemanticDiagnostics fileName).map
            (fun d => diagCodec d scriptInfo) } ::
          sendPendingDiagnostics ps f2u diagCodec rest

/-- Per-file description of what the diagnostics pass produces: `some`
notification when script info and language service both resolve, `none`
otherwise. -/
def diagNotifFor (ps : ProjectService) (f2u : String → String)
    (diagCodec : TsDiagnostic → ScriptInfo → LspDiagnostic)
    (fileName : String) : Option PublishDiagnosticsNotif :=
  match ps.getScriptInfo fileName with
  | none => none
  | some scriptInfo =>
    match ps.getDefaultLanguageService scriptInfo with
    | none => none
    | some denoLgSrv =>
      some { uri := f2u fileName,
             diagnostics := (denoLgSrv.getSemanticDiagnostics fileName).map
               (fun d => diagCodec d scriptInfo) }

/-- Whether a file resolves to both a script info and a language
service. -/
def fileResolves (ps : ProjectService) (fileName : String) : Bool :=
  match ps.getScriptInfo fileName with
  | none => false
  | some scriptInfo => (ps.getDefaultLanguageService scriptInfo).isSome

/-- Parameters of the `didOpenTextDocument` notification. -/
structure DidOpenTextDocumentParams where
  uri : String
  languageId : String
  text : String

/-- Observable outcome of the open-document handler: the `openClientFile`
calls issued to the engine, the error messages logged, the `findProject`
lookups issued, and the projects whose `refreshDiagnostics` was
requested. -/
structure OpenDocOutcome where
  opened : List (String × String × ScriptKind)
  errorLogs : List String
  lookups : List String
  refreshed : List String
deriving DecidableEq, Repr

/-- `onDidOpenTextDocument` (source lines 174-220), non-throwing path: on a
usable file path, classify the script kind, open the client file in the
engine, log config-file errors non-fatally, abort with an error log when no
config file or no project is found, and otherwise request a diagnostics
refresh exactly when the project's language service is enabled. `u2f` is
`uriToFilePath` from a module outside the given sources; it yields the
empty string on an unusable URI. -/
def onDidOpenTextDocument (ps : ProjectService) (u2f : String → String)
    (params : DidOpenTextDocumentParams) : OpenDocOutcome :=
  let filePath := u2f params.uri
  if filePath = "" then
    { opened := [], errorLogs := [], lookups := [], refreshed := [] }
  else
    let scriptKind := scriptKindFor params.languageId
    let result := ps.openClientFile filePath params.text scriptKind
    let opened := [(filePath, params.text, scriptKind)]
    let errLogs :=
      match result.configFileErrors with
      | some errs =>
        if errs.length ≠ 0 then [String.intercalate "\n" errs] else []
      | none => []
    match result.configFileName with
    | none =>
      { opened := opened,
        errorLogs := errLogs ++ ["No config file for " ++ filePath],
        lookups := [], refreshed := [] }
    | some configFileName =>
      match ps.findProject configFileName with
      | none =>
        { opened := opened,
          errorLogs := errLogs ++ ["Failed to find project for " ++ filePath],
          lookups := [configFileName], refreshed := [] }
      | some project =>
        if project.languageServiceEnabled then
          { opened := opened, errorLogs := errLogs,
            lookups := [configFileName], refreshed := [project.projectName] }
        else
          { opened := opened, errorLogs := errLogs,
            lookups := [configFileName], refreshed := [] }

/-- Parameters of a position-based request. -/
structure TextDocumentPositionParams where
  uri : String
  position : LspPosition

/-- The per-definition loop of `onDefinition` (source lines 269-292): a
location without script info is skipped when its span is nonzero, kept with
the `EMPTY_RANGE` fallback when its span is zero, and converted through the
position codec when its script info resolves. -/
def defsToLinks (ps : ProjectService) (f2u : String → String)
    (originSelectionRange : LspRange) : List DefinitionInfo → List LocationLink
  | [] => []
  | d :: rest =>
    match ps.getScriptInfo d.fileName with
    | none =>
      if 0 < d.textSpan.length then
        defsToLinks ps f2u originSelectionRange rest
      else
        { originSelectionRange := originSelectionRange,
          targetUri := f2u d.fileName,
          targetRange := EMPTY_RANGE,
          targetSelectionRange := EMPTY_RANGE } ::
          defsToLinks ps f2u originSelectionRange rest
    | some scriptInfo =>
      let range := tsTextSpanToLspRange scriptInfo d.textSpan
      { originSelectionRange := originSelectionRange,
        targetUri := f2u d.fileName,
        targetRange := range,
        targetSelectionRange := range } ::
        defsToLinks ps f2u originSelectionRange rest

/-- `onDefinition` (source lines 245-294): resolve the script info and
language service of the request's file, query the engine for the
definitions, and convert each defining location through `defsToLinks`. -/
def onDefinition (ps : ProjectService) (u2f f2u : String → String)
    (params : TextDocumentPositionParams) : Option (List LocationLink) :=
  let filePath := u2f params.uri
  match ps.getScriptInfo filePath with
  | none => none
  | some scriptInfo =>
    match ps.getDefaultLanguageService scriptInfo with
    | none => none
    | some langSvc =>
      let offset := lspPositionToTsPosition scriptInfo params.position
      match langSvc.getDefinitionAndBoundSpan scriptInfo.fileName offset with
      | none => none
      | some definition =>
        match definition.definitions with
        | none => none
        | some defs =>
          let originSelectionRange :=
            tsTextSpanToLspRange scriptInfo definition.textSpan
          some (defsToLinks ps f2u originSelectionRange defs)

/-- `onCompletion` (source lines 296-325): resolve the file path, script
info and language service, query the engine for completions, and map each
entry through the completion codec in order. `entryCodec` is
`tsCompletionEntryToLspCompletionItem` from a module outside the given
sources. -/
def onCompletion (ps : ProjectService) (u2f : String → String)
    (entryCodec : CompletionEntry → LspPosition → ScriptInfo → CompletionItem)
    (params : TextDocumentPositionParams) : Option (List CompletionItem) :=
  let filePath := u2f params.uri
  if filePath = "" then none
  else
    match ps.getScriptInfo filePath with
    | none => none
    | some scriptInfo =>
      match ps.getDefaultLanguageService scriptInfo with
      | none => none
      | some langSvc =>
        let offset := lspPositionToTsPosition scriptInfo params.position
        match langSvc.getCompletionsAtPosition scriptInfo.fileName offset with
        | none => none
        | some completions =>
          some (completions.entries.map
            (fun e => entryCodec e params.position scriptInfo))

/-- A timer registered with the runtime (`setTimeout`): its handle, its fire
time, and the open-files set captured by its callback. -/
structure Timer where
  id : Nat
  fireTime : Nat
  files : List String
deriving DecidableEq, Repr

/-- State of the diagnostics scheduler: the timers currently outstanding in
the runtime, the `diagnosticsTimeout` handle stored on the connection, a
fresh-handle counter, and the trace of diagnostics passes that have run.
Each processed entry records the value of `diagnosticsTimeout` observed at
the moment the pass ran, together with the batch of files processed. -/
structure SchedState where
  timers : List Timer
  diagnosticsTimeout : Option Nat
  nextId : Nat
  processed : List (Option Nat × List String)
deriving DecidableEq, Repr

/-- Initial scheduler state: no timer, `diagnosticsTimeout = null`, nothing
processed. -/
def initSchedState : SchedState :=
  { timers := [], diagnosticsTimeout := none, nextId := 0, processed := [] }

/-- The diagnostics pass of the timer callback, instrumented to record the
`diagnosticsTimeout` value it observes when it starts. -/
def runDiagnosticsPass (st : SchedState) (files : List String) : SchedState :=
  { st with processed := st.processed ++ [(st.diagnosticsTimeout, files)] }

/-- `clearTimeout`: remove the timer with the given handle from the
runtime. -/
def cancelTimeout (st : SchedState) (id : Nat) : SchedState :=
  { st with timers := st.timers.filter (fun t => t.id ≠ id) }

/-- `triggerDiagnostics` (source lines 128-142): cancel the pending timer if
there is one, then register a fresh timer that fires after `delay` over the
given open-files set, and remember its handle. -/
def triggerDiagnostics (st : SchedState) (now : Nat) (openFiles : List String)
    (delay : Nat) : SchedState :=
  let st1 :=
    match st.diagnosticsTimeout with
    | some id => cancelTimeout st id
    | none => st
  { st1 with
    timers := st1.timers ++ [{ id := st.nextId, fireTime := now + delay, files := openFiles }],
    diagnosticsTimeout := some st.nextId,
    nextId := st.nextId + 1 }

/-- The runtime fires one due timer: the timer leaves the queue and its
callback (source lines 136-138) first sets `diagnosticsTimeout` to null and
then runs the diagnostics pass over the captured files. -/
def fireTimer (st : SchedState) (t : Timer) : SchedState :=
  let removed := { st with timers := st.timers.filter (fun u => u.id ≠ t.id) }
  let cleared := { removed with diagnosticsTimeout := none }
  runDiagnosticsPass cleared t.files

/-- The runtime fires every timer due at time `now`. -/
def fireDue (st : SchedState) (now : Nat) : SchedState :=
  st.timers.foldl (fun acc t => if t.fireTime ≤ now then fireTimer acc t else acc) st

/-- Timed stimuli to the scheduler: a `triggerDiagnostics` call, or a bare
passage of time. -/
inductive SchedEvent where
  | trigger (openFiles : List String) (delay : Nat)
  | tick
deriving DecidableEq, Repr

/-- One timed step: time advances to `now` (firing any due timer), then the
event happens. -/
def schedStep (st : SchedState) : Nat × SchedEvent → SchedState
  | (now, SchedEvent.trigger openFiles delay) =>
    triggerDiagnostics (fireDue st now) now openFiles delay
  | (now, SchedEvent.tick) => fireDue st now

/-- Run the scheduler over a timed stimulus list. -/
def schedRun (st : SchedState) (evs : List (Nat × SchedEvent)) : SchedState :=
  evs.foldl schedStep st

/-- Scheduler invariant: at most one timer is outstanding, its handle is the
one stored in `diagnosticsTimeout`, and every outstanding handle is below
the fresh counter. -/
def SchedInv (st : SchedState) : Prop :=
  st.timers.length ≤ 1 ∧
  ∀ t ∈ st.timers, t.id < st.nextId ∧ st.diagnosticsTimeout = some t.id

/-- A sequence of trigger call times each strictly later than the previous
one and strictly inside the previous call's delay window. -/
def withinWindow (delay : Nat) : Nat → List (Nat × List String) → Prop
  | _, [] => True
  | prev, c :: rest => prev < c.1 ∧ c.1 < prev + delay ∧ withinWindow delay c.1 rest

/-- Turn trigger calls (time, files) into timed scheduler stimuli with a
fixed delay. -/
def mkTriggers (delay : Nat) (calls : List (Nat × List String)) :
    List (Nat × SchedEvent) :=
  calls.map (fun c => (c.1, SchedEvent.trigger c.2 delay))

/-- Time of the last call of a trigger sequence (default: the preceding
call's time). -/
def lastTime (prev : Nat) : List (Nat × List String) → Nat
  | [] => prev
  | c :: rest => lastTime c.1 rest

/-- Open-files set of the last call of a trigger sequence (default: the
preceding call's set). -/
def lastFiles (files : List String) : List (Nat × List String) → List String
  | [] => files
  | c :: rest => lastFiles c.2 rest

/-- Handle of the timer outstanding after a trigger sequence starting from
a state holding timer `i` with fresh counter `n`. -/
def lastId (i n : Nat) : List (Nat × List String) → Nat
  | [] => i
  | _ :: rest => n + rest.length

/-- Fresh counter after a trigger sequence. -/
def nextAfter (n : Nat) (calls : List (Nat × List String)) : Nat :=
  n + calls.length

/-- The loading notifications the bridge emits. -/
inductive LoadingNotif where
  | start
  | finish
deriving DecidableEq, Repr

/-- Stimuli to the connection's loading state machine: the three project
service events (`handleProjectServiceEvent`, source lines 92-120), with the
finish event carrying whether the gatekeeper check throws, and the
open-document handler (source lines 184-219), which may throw after the
engine call. -/
inductive ConnEvent where
  | projectLoadingStart
  | projectLoadingFinish (gatekeeperThrows : Bool)
  | projectsUpdatedInBackground (openFiles : List String)
  | didOpenThrows
  | didOpenOk
deriving DecidableEq, Repr

/-- The connection's loading state: the `isProjectLoading` flag. -/
structure ConnState where
  isProjectLoading : Bool
deriving DecidableEq, Repr

/-- One step of the loading state machine. `ProjectLoadingStart` sets the
flag and emits the start notification; `ProjectLoadingFinish` runs the
gatekeeper check inside a try/finally, so whether it throws or not, the
finish notification is emitted and the flag reset exactly when the flag was
set; a throwing open-document handler does the same in its catch block
before re-raising; everything else leaves the flag alone. -/
def stepConn : ConnState → ConnEvent → ConnState × List LoadingNotif
  | _, ConnEvent.projectLoadingStart => (⟨true⟩, [LoadingNotif.start])
  | s, ConnEvent.projectLoadingFinish _ =>
    if s.isProjectLoading then (⟨false⟩, [LoadingNotif.finish]) else (s, [])
  | s, ConnEvent.projectsUpdatedInBackground _ => (s, [])
  | s, ConnEvent.didOpenThrows =>
    if s.isProjectLoading then (⟨false⟩, [LoadingNotif.finish]) else (s, [])
  | s, ConnEvent.didOpenOk => (s, [])

/-- Run the loading state machine over an event list, collecting the
notification trace. -/
def runConn (s : ConnState) : List ConnEvent → ConnState × List LoadingNotif
  | [] => (s, [])
  | e :: es =>
    let r1 := stepConn s e
    let r2 := runConn r1.1 es
    (r2.1, r1.2 ++ r2.2)

/-- Engine-side well-formedness of an event sequence, tracking whether the
engine is currently loading a project: a load starts only when none is in
progress, finishes only when one is, and every started load is finished by
the end of the sequence. Open-document and background-update events may
occur at any point. -/
def WellFormed : Bool → List ConnEvent → Prop
  | b, [] => b = false
  | b, e :: es =>
    match e with
    | ConnEvent.projectLoadingStart => b = false ∧ WellFormed true es
    | ConnEvent.projectLoadingFinish _ => b = true ∧ WellFormed false es
    | _ => WellFormed b es

end DenoLsp

namespace DenoLsp

/-- C10: the open-document handler opens the client file with script kind
`TS` exactly for the four TS language ids `javascript`, `javascriptreact`,
`typescript`, `typescriptreact`, and with script kind `External` for every
other language id. -/
theorem scriptKindFor_classification :
    (∀ languageId : String,
      scriptKindFor languageId = ScriptKind.TS ↔ languageId ∈ LanguageTsIds) ∧
    (∀ languageId : String,
      scriptKindFor languageId = ScriptKind.External ↔ languageId ∉ LanguageTsIds) ∧
    (∀ (ps : ProjectService) (u2f : String → String)
        (params : DidOpenTextDocumentParams), ¬(u2f params.uri = "") →
      (onDidOpenTextDocument ps u2f params).opened =
        [(u2f params.uri, params.text, scriptKindFor params.languageId)]) ∧
    scriptKindFor "javascript" = ScriptKind.TS ∧
    scriptKindFor "javascriptreact" = ScriptKind.TS ∧
    scriptKindFor "typescript" = ScriptKind.TS ∧
    scriptKindFor "typescriptreact" = ScriptKind.TS := by
  refine ⟨?_, ?_, ?_, by decide, by decide, by decide, by decide⟩
  · intro languageId
    simp only [scriptKindFor, List.contains, List.elem_iff]
    by_cases h : languageId ∈ LanguageTsIds
    · simp [h]
    · simp [h]
  · intro languageId
    simp only [scriptKindFor, List.contains, List.elem_iff]
    by_cases h : languageId ∈ LanguageTsIds
    · simp [h]
    · simp [h]
  · intro ps u2f params h
    unfold onDidOpenTextDocument
    rw [if_neg h]
    dsimp only
    split
    · rfl
    · split
      · rfl
      · split <;> rfl

/-- C10 witness: a `typescript` document is opened with kind `TS`, a
`markdown` document with kind `External`, and the handler records the
classified kind in its engine call. -/
theorem scriptKindFor_classification_witness :
    scriptKindFor "typescript" = ScriptKind.TS ∧
    scriptKindFor "markdown" = ScriptKind.External ∧
    (onDidOpenTextDocument
      { getScriptInfo := fun _ => none,
        getDefaultLanguageService := fun _ => none,
        openClientFile := fun _ _ _ =>
          { configFileName := none, configFileErrors := none },
        findProject := fun _ => none }
      (fun _ => "/x.md")
      { uri := "file:///x.md", languageId := "markdown", text := "t" }).opened =
      [("/x.md", "t", ScriptKind.External)] := by
  refine ⟨?_, ?_, ?_⟩
  · exact scriptKindFor_classification.2.2.2.2.2.1
  · exact (scriptKindFor_classification.2.1 "markdown").mpr (by decide)
  · exact scriptKindFor_classification.2.2.1
      { getScriptInfo := fun _ => none,
        getDefaultLanguageService := fun _ => none,
        openClientFile := fun _ _ _ =>
          { configFileName := none, configFileErrors := none },
        findProject := fun _ => none }
      (fun _ => "/x.md")
      { uri := "file:///x.md", languageId := "markdown", text := "t" }
      (by decide)

/-- C4: the gatekeeper decision. On an already-disabled project the check
only logs and neither flips the flag nor calls the disable operation; on an
enabled project without the `mod.ts` marker it invokes the disable
operation, so `languageServiceEnabled` becomes false; on an enabled project
with the marker it leaves the project untouched and does not invoke the
disable operation. -/
theorem checkIsDenoProject_decision (m : Nat) (p : Project) :
    (p.languageServiceEnabled = false →
      (checkIsDenoProject m p).project.languageServiceEnabled = false ∧
      (checkIsDenoProject m p).disableCalled = false ∧
      (checkIsDenoProject m p).project.fileNames = p.fileNames ∧
      (checkIsDenoProject m p).consoleInfos.length = 1) ∧
    (p.languageServiceEnabled = true → isDenoProject p "mod.ts" = false →
      (checkIsDenoProject m p).project.languageServiceEnabled = false ∧
      (checkIsDenoProject m p).disableCalled = true) ∧
    (p.languageServiceEnabled = true → isDenoProject p "mod.ts" = true →
      (checkIsDenoProject m p).project = p ∧
      (checkIsDenoProject m p).project.languageServiceEnabled = true ∧
      (checkIsDenoProject m p).disableCalled = false) := by
  refine ⟨?_, ?_, ?_⟩
  · intro h1
    simp [checkIsDenoProject, h1]
  · intro h1 h2
    simp [checkIsDenoProject, h1, h2]
  · intro h1 h2
    simp [checkIsDenoProject, h1, h2]

/-- C4 witness: the three gatekeeper branches at concrete projects. -/
theorem checkIsDenoProject_decision_witness :
    (checkIsDenoProject 20971520
      { projectName := "p1", languageServiceEnabled := false,
        fileNames := ["a.ts"], projectLog := [] }).disableCalled = false ∧
    (checkIsDenoProject 20971520
      { projectName := "p2", languageServiceEnabled := true,
        fileNames := ["a.ts"], projectLog := [] }).project.languageServiceEnabled = false ∧
    (checkIsDenoProject 20971520
      { projectName := "p3", languageServiceEnabled := true,
        fileNames := ["mod.ts"], projectLog := [] }).project.languageServiceEnabled = true := by
  refine ⟨?_, ?_, ?_⟩
  · exact ((checkIsDenoProject_decision 20971520 _).1 rfl).2.1
  · exact ((checkIsDenoProject_decision 20971520 _).2.1 rfl (by decide)).1
  · exact ((checkIsDenoProject_decision 20971520 _).2.2 rfl (by decide)).2.1

/-- The gatekeeper check never changes the project's file set. -/
theorem checkIsDenoProject_fileNames (m : Nat) (q : Project) :
    (checkIsDenoProject m q).project.fileNames = q.fileNames := by
  cases h1 : q.languageServiceEnabled
  · simp [checkIsDenoProject, h1]
  · cases h2 : isDenoProject q "mod.ts" <;> simp [checkIsDenoProject, h1, h2]

/-- The flag after the gatekeeper check is the conjunction of the flag
before and the marker-file test. -/
theorem checkIsDenoProject_enabled (m : Nat) (q : Project) :
    (checkIsDenoProject m q).project.languageServiceEnabled =
      (q.languageServiceEnabled && isDenoProject q "mod.ts") := by
  cases h1 : q.languageServiceEnabled
  · simp [checkIsDenoProject, h1]
  · cases h2 : isDenoProject q "mod.ts" <;> simp [checkIsDenoProject, h1, h2]

/-- The gatekeeper invokes the disable operation exactly on enabled
projects failing the marker-file test. -/
theorem checkIsDenoProject_disableCalled (m : Nat) (q : Project) :
    (checkIsDenoProject m q).disableCalled =
      (q.languageServiceEnabled && !(isDenoProject q "mod.ts")) := by
  cases h1 : q.languageServiceEnabled
  · simp [checkIsDenoProject, h1]
  · cases h2 : isDenoProject q "mod.ts" <;> simp [checkIsDenoProject, h1, h2]

/-- The marker-file test reads only the project's file set. -/
theorem isDenoProject_congr (p q : Project) (marker : String)
    (h : p.fileNames = q.fileNames) :
    isDenoProject p marker = isDenoProject q marker := by
  simp [isDenoProject, h]

/-- C5: the gatekeeper check is idempotent on the
`languageServiceEnabled` flag: a second run on the project as left by the
first run yields the same flag; a project disabled by the first run takes
the already-disabled branch (no disable call) on the second run and stays
disabled; a project left enabled stays enabled. -/
theorem checkIsDenoProject_idempotent (m : Nat) (p : Project) :
    (checkIsDenoProject m (checkIsDenoProject m p).project).project.languageServiceEnabled =
      (checkIsDenoProject m p).project.languageServiceEnabled ∧
    ((checkIsDenoProject m p).project.languageServiceEnabled = false →
      (checkIsDenoProject m (checkIsDenoProject m p).project).disableCalled = false ∧
      (checkIsDenoProject m (checkIsDenoProject m p).project).project.languageServiceEnabled = false) ∧
    ((checkIsDenoProject m p).project.languageServiceEnabled = true →
      (checkIsDenoProject m (checkIsDenoProject m p).project).project.languageServiceEnabled = true) := by
  have e1 := checkIsDenoProject_enabled m p
  have e2 := checkIsDenoProject_enabled m (checkIsDenoProject m p).project
  have d2 := checkIsDenoProject_disableCalled m (checkIsDenoProject m p).project
  have hf := checkIsDenoProject_fileNames m p
  have hcong := isDenoProject_congr (checkIsDenoProject m p).project p "mod.ts" hf
  rw [hcong] at e2 d2
  refine ⟨?_, ?_, ?_⟩
  · rw [e2, e1]
    cases hq : p.languageServiceEnabled <;>
      cases hd : isDenoProject p "mod.ts" <;> simp
  · intro h
    rw [h] at e2 d2
    simp at e2 d2
    exact ⟨d2, e2⟩
  · intro h
    rw [h] at e2
    rw [e1] at h
    rcases Bool.and_eq_true_iff.mp h with ⟨h1, h2⟩
    rw [e2, h2]
    simp

/-- The diagnostics pass is the per-file resolution map over the open-files
list. -/
theorem sendPendingDiagnostics_eq_filterMap (ps : ProjectService)
    (f2u : String → String)
    (diagCodec : TsDiagnostic → ScriptInfo → LspDiagnostic) :
    ∀ openFiles : List String,
      sendPendingDiagnostics ps f2u diagCodec openFiles =
        openFiles.filterMap (diagNotifFor ps f2u diagCodec) := by
  intro openFiles
  induction openFiles with
  | nil => rfl
  | cons f rest ih =>
    rw [List.filterMap_cons]
    cases hsi : ps.getScriptInfo f with
    | none =>
      simpa [sendPendingDiagnostics, diagNotifFor, hsi] using ih
    | some si =>
      cases hls : ps.getDefaultLanguageService si with
      | none =>
        simpa [sendPendingDiagnostics, diagNotifFor, hsi, hls] using ih
      | some ls =>
        simpa [sendPendingDiagnostics, diagNotifFor, hsi, hls] using ih

/-- The per-file resolution yields a notification exactly on resolvable
files. -/
theorem diagNotifFor_isSome (ps : ProjectService) (f2u : String → String)
    (diagCodec : TsDiagnostic → ScriptInfo → LspDiagnostic) (f : String) :
    (diagNotifFor ps f2u diagCodec f).isSome = fileResolves ps f := by
  cases hsi : ps.getScriptInfo f with
  | none => simp [diagNotifFor, fileResolves, hsi]
  | some si =>
    cases hls : ps.getDefaultLanguageService si with
    | none => simp [diagNotifFor, fileResolves, hsi, hls]
    | some ls => simp [diagNotifFor, fileResolves, hsi, hls]

/-- The length of a filterMap is the count of inputs the function keeps. -/
theorem length_filterMap_eq_countP {α β : Type} (f : α → Option β) :
    ∀ l : List α, (l.filterMap f).length = l.countP (fun a => (f a).isSome) := by
  intro l
  induction l with
  | nil => rfl
  | cons a rest ih =>
    rw [List.filterMap_cons, List.countP_cons]
    cases hfa : f a with
    | none => simp [hfa, ih]
    | some b => simp [hfa, ih]

/-- C3: the debounced diagnostics pass emits, per open file whose script
info and language service both resolve, exactly one `publishDiagnostics`
notification carrying the file's URI and the mapped diagnostics — including
the empty-array notification when there are no diagnostics — and emits
nothing for a file for which either lookup fails; every emitted
notification stems from a resolvable open file. -/
theorem sendPendingDiagnostics_perFile (ps : ProjectService)
    (f2u : String → String)
    (diagCodec : TsDiagnostic → ScriptInfo → LspDiagnostic)
    (openFiles : List String) :
    sendPendingDiagnostics ps f2u diagCodec openFiles =
      openFiles.filterMap (diagNotifFor ps f2u diagCodec) ∧
    (sendPendingDiagnostics ps f2u diagCodec openFiles).length =
      openFiles.countP (fun f => fileResolves ps f) ∧
    (∀ f ∈ openFiles, ∀ si ls, ps.getScriptInfo f = some si →
      ps.getDefaultLanguageService si = some ls →
      { uri := f2u f,
        diagnostics := (ls.getSemanticDiagnostics f).map
          (fun d => diagCodec d si) : PublishDiagnosticsNotif } ∈
        sendPendingDiagnostics ps f2u diagCodec openFiles) ∧
    (∀ f ∈ openFiles, ∀ si ls, ps.getScriptInfo f = some si →
      ps.getDefaultLanguageService si = some ls →
      ls.getSemanticDiagnostics f = [] →
      { uri := f2u f, diagnostics := [] : PublishDiagnosticsNotif } ∈
        sendPendingDiagnostics ps f2u diagCodec openFiles) ∧
    (∀ n ∈ sendPendingDiagnostics ps f2u diagCodec openFiles,
      ∃ f ∈ openFiles, fileResolves ps f = true ∧
        diagNotifFor ps f2u diagCodec f = some n) := by
  have hmap := sendPendingDiagnostics_eq_filterMap ps f2u diagCodec openFiles
  refine ⟨hmap, ?_, ?_, ?_, ?_⟩
  · rw [hmap, length_filterMap_eq_countP]
    congr 1
    funext f
    rw [diagNotifFor_isSome]
  · intro f hf si ls hsi hls
    rw [hmap]
    refine List.mem_filterMap.mpr ⟨f, hf, ?_⟩
    simp [diagNotifFor, hsi, hls]
  · intro f hf si ls hsi hls hempty
    rw [hmap]
    refine List.mem_filterMap.mpr ⟨f, hf, ?_⟩
    simp [diagNotifFor, hsi, hls, hempty]
  · intro n hn
    rw [hmap] at hn
    rcases List.mem_filterMap.mp hn with ⟨f, hf, hsome⟩
    refine ⟨f, hf, ?_, hsome⟩
    rw [← diagNotifFor_isSome ps f2u diagCodec f, hsome]
    rfl

/-- C3 witness: over two open files of which only the first resolves (with
an empty diagnostics list), the pass emits exactly the one empty-array
notification for the first file. -/
theorem sendPendingDiagnostics_perFile_witness :
    { uri := "file:///a.ts", diagnostics := [] : PublishDiagnosticsNotif } ∈
      sendPendingDiagnostics
        { getScriptInfo := fun f =>
            if f = "/a.ts" then some { fileName := "/a.ts", text := ['x'] } else none,
          getDefaultLanguageService := fun _ =>
            some { getSemanticDiagnostics := fun _ => [],
                   getCompletionsAtPosition := fun _ _ => none,
                   getDefinitionAndBoundSpan := fun _ _ => none },
          openClientFile := fun _ _ _ =>
            { configFileName := none, configFileErrors := none },
          findProject := fun _ => none }
        (fun p => "file://" ++ p)
        (fun d _ => { message := d.messageText })
        ["/a.ts", "/missing.ts"] := by
  exact (sendPendingDiagnostics_perFile _ _ _ _).2.2.2.1 "/a.ts" (by simp)
    { fileName := "/a.ts", text := ['x'] }
    { getSemanticDiagnostics := fun _ => [],
      getCompletionsAtPosition := fun _ _ => none,
      getDefinitionAndBoundSpan := fun _ _ => none }
    rfl rfl rfl

/-- C6: per defining location returned by the engine, the definition
handler omits a location with no script info and a nonzero span, returns
the fixed zero-width `(0,0)-(0,0)` range for a location with no script info
and a zero-length span, and converts the span through the position codec
when the script info resolves; on a resolvable request the handler returns
exactly the per-location conversion of the engine's definition list. -/
theorem onDefinition_perLocation (ps : ProjectService)
    (u2f f2u : String → String) (orig : LspRange)
    (d : DefinitionInfo) (rest : List DefinitionInfo)
    (params : TextDocumentPositionParams) :
    (ps.getScriptInfo d.fileName = none → 0 < d.textSpan.length →
      defsToLinks ps f2u orig (d :: rest) = defsToLinks ps f2u orig rest) ∧
    (ps.getScriptInfo d.fileName = none → d.textSpan.length = 0 →
      defsToLinks ps f2u orig (d :: rest) =
        { originSelectionRange := orig, targetUri := f2u d.fileName,
          targetRange := EMPTY_RANGE,
          targetSelectionRange := EMPTY_RANGE } :: defsToLinks ps f2u orig rest) ∧
    (∀ si, ps.getScriptInfo d.fileName = some si →
      defsToLinks ps f2u orig (d :: rest) =
        { originSelectionRange := orig, targetUri := f2u d.fileName,
          targetRange := tsTextSpanToLspRange si d.textSpan,
          targetSelectionRange := tsTextSpanToLspRange si d.textSpan } ::
          defsToLinks ps f2u orig rest) ∧
    (∀ si ls defn ds, ps.getScriptInfo (u2f params.uri) = some si →
      ps.getDefaultLanguageService si = some ls →
      ls.getDefinitionAndBoundSpan si.fileName
        (lspPositionToTsPosition si params.position) = some defn →
      defn.definitions = some ds →
      onDefinition ps u2f f2u params =
        some (defsToLinks ps f2u
          (tsTextSpanToLspRange si defn.textSpan) ds)) := by
  refine ⟨?_, ?_, ?_, ?_⟩
  · intro hsi hlen
    simp [defsToLinks, hsi, hlen]
  · intro hsi hlen
    simp [defsToLinks, hsi, hlen]
  · intro si hsi
    simp [defsToLinks, hsi]
  · intro si ls defn ds hsi hls hdef hds
    simp [onDefinition, hsi, hls, hdef, hds]

/-- C6 witness: with one unreadable nonzero-span location, one unreadable
zero-span location, and one resolvable location, the handler returns the
fallback link and the converted link and omits the first location. -/
theorem onDefinition_perLocation_witness :
    defsToLinks
      { getScriptInfo := fun f =>
          if f = "/a.ts" then some { fileName := "/a.ts", text := ['l', 'e', 't'] } else none,
        getDefaultLanguageService := fun _ => none,
        openClientFile := fun _ _ _ =>
          { configFileName := none, configFileErrors := none },
        findProject := fun _ => none }
      (fun p => "file://" ++ p) EMPTY_RANGE
      [{ fileName := "/style.css", textSpan := { start := 0, length := 4 } }] = [] ∧
    defsToLinks
      { getScriptInfo := fun f =>
          if f = "/a.ts" then some { fileName := "/a.ts", text := ['l', 'e', 't'] } else none,
        getDefaultLanguageService := fun _ => none,
        openClientFile := fun _ _ _ =>
          { configFileName := none, configFileErrors := none },
        findProject := fun _ => none }
      (fun p => "file://" ++ p) EMPTY_RANGE
      [{ fileName := "/style.css", textSpan := { start := 0, length := 0 } }] =
      [{ originSelectionRange := EMPTY_RANGE, targetUri := "file:///style.css",
         targetRange := EMPTY_RANGE, targetSelectionRange := EMPTY_RANGE }] := by
  constructor
  · exact (onDefinition_perLocation _ (fun s => s) _ _ _ []
      { uri := "u", position := { line := 0, character := 0 } }).1 (by simp) (by decide)
  · exact (onDefinition_perLocation _ (fun s => s) _ _ _ []
      { uri := "u", position := { line := 0, character := 0 } }).2.1 (by simp) rfl

/-- C8: the completion handler returns exactly one item per engine entry,
each produced by the completion codec from the corresponding entry, in the
engine's order (no re-sorting, no filtering); and it returns no result when
the file path, the script info, the language service, or the engine's
completion result is absent. -/
theorem onCompletion_spec (ps : ProjectService) (u2f : String → String)
    (entryCodec : CompletionEntry → LspPosition → ScriptInfo → CompletionItem)
    (params : TextDocumentPositionParams) :
    (u2f params.uri = "" →
      onCompletion ps u2f entryCodec params = none) ∧
    (¬(u2f params.uri = "") → ps.getScriptInfo (u2f params.uri) = none →
      onCompletion ps u2f entryCodec params = none) ∧
    (∀ si, ¬(u2f params.uri = "") →
      ps.getScriptInfo (u2f params.uri) = some si →
      ps.getDefaultLanguageService si = none →
      onCompletion ps u2f entryCodec params = none) ∧
    (∀ si ls, ¬(u2f params.uri = "") →
      ps.getScriptInfo (u2f params.uri) = some si →
      ps.getDefaultLanguageService si = some ls →
      ls.getCompletionsAtPosition si.fileName
        (lspPositionToTsPosition si params.position) = none →
      onCompletion ps u2f entryCodec params = none) ∧
    (∀ si ls ci, ¬(u2f params.uri = "") →
      ps.getScriptInfo (u2f params.uri) = some si →
      ps.getDefaultLanguageService si = some ls →
      ls.getCompletionsAtPosition si.fileName
        (lspPositionToTsPosition si params.position) = some ci →
      onCompletion ps u2f entryCodec params =
        some (ci.entries.map (fun e => entryCodec e params.position si)) ∧
      (∀ r, onCompletion ps u2f entryCodec params = some r →
        r.length = ci.entries.length ∧
        ∀ i : Nat, r[i]? =
          (ci.entries[i]?).map (fun e => entryCodec e params.position si))) := by
  refine ⟨?_, ?_, ?_, ?_, ?_⟩
  · intro h
    simp [onCompletion, h]
  · intro h hsi
    simp [onCompletion, h, hsi]
  · intro si h hsi hls
    simp [onCompletion, h, hsi, hls]
  · intro si ls h hsi hls hci
    simp [onCompletion, h, hsi, hls, hci]
  · intro si ls ci h hsi hls hci
    have hres : onCompletion ps u2f entryCodec params =
        some (ci.entries.map (fun e => entryCodec e params.position si)) := by
      simp [onCompletion, h, hsi, hls, hci]
    refine ⟨hres, ?_⟩
    intro r hr
    rw [hres] at hr
    cases hr
    constructor
    · exact List.length_map _ _
    · intro i
      simp

/-- C8 witness: a two-entry engine result maps to the two codec items in
order. -/
theorem onCompletion_spec_witness :
    onCompletion
      { getScriptInfo := fun f =>
          if f = "/a.ts" then some { fileName := "/a.ts", text := ['x'] } else none,
        getDefaultLanguageService := fun _ =>
          some { getSemanticDiagnostics := fun _ => [],
                 getCompletionsAtPosition := fun _ _ =>
                   some { entries :=
                     [{ name := "foo", kind := "function", sortText := "0" },
                      { name := "bar", kind := "const", sortText := "1" }] },
                 getDefinitionAndBoundSpan := fun _ _ => none },
        openClientFile := fun _ _ _ =>
          { configFileName := none, configFileErrors := none },
        findProject := fun _ => none }
      (fun _ => "/a.ts")
      (fun e _ _ => { label := e.name, detail := e.kind })
      { uri := "file:///a.ts", position := { line := 0, character := 0 } } =
      some [{ label := "foo", detail := "function" },
            { label := "bar", detail := "const" }] := by
  exact ((onCompletion_spec _ _ _ _).2.2.2.2
    { fileName := "/a.ts", text := ['x'] }
    { getSemanticDiagnostics := fun _ => [],
      getCompletionsAtPosition := fun _ _ =>
        some { entries :=
          [{ name := "foo", kind := "function", sortText := "0" },
           { name := "bar", kind := "const", sortText := "1" }] },
      getDefinitionAndBoundSpan := fun _ _ => none }
    { entries :=
        [{ name := "foo", kind := "function", sortText := "0" },
         { name := "bar", kind := "const", sortText := "1" }] }
    (by decide) rfl rfl rfl).1

/-- C7: the open-document handler after the engine opens the client file.
Config-file errors are logged and processing continues; a missing config
file name logs an error and stops with no project lookup and no refresh; a
resolved config file with no matching project logs an error and stops with
no refresh; otherwise a diagnostics refresh is requested if and only if the
project's language service is enabled, with no error logged beyond the
non-fatal config errors. -/
theorem onDidOpenTextDocument_errorPaths (ps : ProjectService)
    (u2f : String → String) (params : DidOpenTextDocumentParams) :
    ∀ filePath result errLogs,
    filePath = u2f params.uri →
    result = ps.openClientFile filePath params.text (scriptKindFor params.languageId) →
    errLogs = (match result.configFileErrors with
      | some errs =>
        if errs.length ≠ 0 then [String.intercalate "\n" errs] else []
      | none => ([] : List String)) →
    ¬(filePath = "") →
    ((result.configFileName = none →
      onDidOpenTextDocument ps u2f params =
        { opened := [(filePath, params.text, scriptKindFor params.languageId)],
          errorLogs := errLogs ++ ["No config file for " ++ filePath],
          lookups := [], refreshed := [] }) ∧
    (∀ cfg, result.configFileName = some cfg → ps.findProject cfg = none →
      onDidOpenTextDocument ps u2f params =
        { opened := [(filePath, params.text, scriptKindFor params.languageId)],
          errorLogs := errLogs ++ ["Failed to find project for " ++ filePath],
          lookups := [cfg], refreshed := [] }) ∧
    (∀ cfg project, result.configFileName = some cfg →
      ps.findProject cfg = some project →
      onDidOpenTextDocument ps u2f params =
        { opened := [(filePath, params.text, scriptKindFor params.languageId)],
          errorLogs := errLogs,
          lookups := [cfg],
          refreshed :=
            if project.languageServiceEnabled then [project.projectName]
            else [] }) ∧
    (∀ errs, result.configFileErrors = some errs → errs ≠ [] →
      String.intercalate "\n" errs ∈ (onDidOpenTextDocument ps u2f params).errorLogs)) := by
  intro filePath result errLogs hfp hres herr hne
  subst hfp
  subst hres
  have hbody : onDidOpenTextDocument ps u2f params =
      (match (ps.openClientFile (u2f params.uri) params.text
          (scriptKindFor params.languageId)).configFileName with
      | none =>
        { opened := [(u2f params.uri, params.text, scriptKindFor params.languageId)],
          errorLogs := errLogs ++ ["No config file for " ++ u2f params.uri],
          lookups := [], refreshed := [] }
      | some configFileName =>
        match ps.findProject configFileName with
        | none =>
          { opened := [(u2f params.uri, params.text, scriptKindFor params.languageId)],
            errorLogs := errLogs ++ ["Failed to find project for " ++ u2f params.uri],
            lookups := [configFileName], refreshed := [] }
        | some project =>
          if project.languageServiceEnabled then
            { opened := [(u2f params.uri, params.text, scriptKindFor params.languageId)],
              errorLogs := errLogs,
              lookups := [configFileName], refreshed := [project.projectName] }
          else
            { opened := [(u2f params.uri, params.text, scriptKindFor params.languageId)],
              errorLogs := errLogs,
              lookups := [configFileName], refreshed := [] }) := by
    unfold onDidOpenTextDocument
    rw [if_neg hne]
    subst herr
    rfl
  refine ⟨?_, ?_, ?_, ?_⟩
  · intro hcfg
    rw [hbody, hcfg]
  · intro cfg hcfg hproj
    rw [hbody, hcfg]
    dsimp only
    rw [hproj]
  · intro cfg project hcfg hproj
    rw [hbody, hcfg]
    dsimp only
    rw [hproj]
    dsimp only
    by_cases hen : project.languageServiceEnabled
    · rw [if_pos hen, if_pos hen]
    · rw [if_neg hen, if_neg hen]
  · intro errs hcfgErr hne'
    have hmem : String.intercalate "\n" errs ∈ errLogs := by
      rw [herr, hcfgErr]
      have : errs.length ≠ 0 := by
        intro h0
        exact hne' (List.eq_nil_of_length_eq_zero h0)
      simp [this]
    rw [hbody]
    cases hcfg : (ps.openClientFile (u2f params.uri) params.text
        (scriptKindFor params.languageId)).configFileName with
    | none => simpa using Or.inl hmem
    | some cfg =>
      dsimp only
      cases hproj : ps.findProject cfg with
      | none => simpa using Or.inl hmem
      | some project =>
        dsimp only
        by_cases hen : project.languageServiceEnabled
        · rw [if_pos hen]
          simpa using hmem
        · rw [if_neg hen]
          simpa using hmem

/-- C7 witness: with an engine reporting one config error and no config
file for the opened document, the handler logs both the error text and the
missing-config error and performs no lookup and no refresh. -/
theorem onDidOpenTextDocument_errorPaths_witness :
    onDidOpenTextDocument
      { getScriptInfo := fun _ => none,
        getDefaultLanguageService := fun _ => none,
        openClientFile := fun _ _ _ =>
          { configFileName := none, configFileErrors := some ["bad config"] },
        findProject := fun _ => none }
      (fun _ => "/a.ts")
      { uri := "file:///a.ts", languageId := "typescript", text := "let x = 1" } =
      { opened := [("/a.ts", "let x = 1", ScriptKind.TS)],
        errorLogs := ["bad config", "No config file for /a.ts"],
        lookups := [], refreshed := [] } := by
  exact (onDidOpenTextDocument_errorPaths _ _ _ _ _ _ rfl rfl rfl (by decide)).1 rfl

/-- C5 witness: running the check twice on a non-Deno project leaves the
service disabled, with the second run taking the already-disabled
branch. -/
theorem checkIsDenoProject_idempotent_witness :
    (checkIsDenoProject 20971520 (checkIsDenoProject 20971520
      { projectName := "p2", languageServiceEnabled := true,
        fileNames := ["a.ts"], projectLog := [] }).project).disableCalled = false := by
  exact ((checkIsDenoProject_idempotent 20971520 _).2.1 (by decide)).1

/-- Running the scheduler over a concatenation is sequential
composition. -/
theorem schedRun_append (st : SchedState) (a b : List (Nat × SchedEvent)) :
    schedRun st (a ++ b) = schedRun (schedRun st a) b := by
  simp [schedRun, List.foldl_append]

/-- Time passing over an empty timer queue changes nothing. -/
theorem fireDue_nil (dt : Option Nat) (n : Nat)
    (proc : List (Option Nat × List String)) (now : Nat) :
    fireDue ⟨[], dt, n, proc⟩ now = ⟨[], dt, n, proc⟩ := rfl

/-- Time passing before a lone timer's fire time changes nothing. -/
theorem fireDue_single_notDue (i ft : Nat) (fs : List String)
    (dt : Option Nat) (n : Nat) (proc : List (Option Nat × List String))
    (now : Nat) (h : ¬ ft ≤ now) :
    fireDue ⟨[⟨i, ft, fs⟩], dt, n, proc⟩ now = ⟨[⟨i, ft, fs⟩], dt, n, proc⟩ := by
  simp [fireDue, h]

/-- A lone due timer fires: it leaves the queue, the pending reference is
cleared, and its batch is processed with the cleared reference
observed. -/
theorem fireDue_single_due (i ft : Nat) (fs : List String)
    (dt : Option Nat) (n : Nat) (proc : List (Option Nat × List String))
    (now : Nat) (h : ft ≤ now) :
    fireDue ⟨[⟨i, ft, fs⟩], dt, n, proc⟩ now =
      ⟨[], none, n, proc ++ [(none, fs)]⟩ := by
  simp [fireDue, fireTimer, runDiagnosticsPass, h]

/-- The initial scheduler state satisfies the one-timer invariant. -/
theorem schedInv_init : SchedInv initSchedState := by
  constructor
  · simp [initSchedState]
  · simp [initSchedState]

/-- A trigger call preserves the one-timer invariant: it cancels the
pending timer before scheduling the fresh one. -/
theorem schedInv_trigger (st : SchedState) (now delay : Nat)
    (files : List String) (h : SchedInv st) :
    SchedInv (triggerDiagnostics st now files delay) := by
  obtain ⟨timers, dt, n, proc⟩ := st
  obtain ⟨hlen, hmem⟩ := h
  match timers, hlen with
  | [], _ =>
    cases dt with
    | none =>
      refine ⟨by simp [triggerDiagnostics], ?_⟩
      intro t ht
      simp [triggerDiagnostics] at ht
      simp [triggerDiagnostics, ht]
    | some id =>
      refine ⟨by simp [triggerDiagnostics, cancelTimeout], ?_⟩
      intro t ht
      simp [triggerDiagnostics, cancelTimeout] at ht
      simp [triggerDiagnostics, cancelTimeout, ht]
  | [t0], _ =>
    obtain ⟨hid, hdt⟩ := hmem t0 (by simp)
    simp only at hdt
    subst hdt
    refine ⟨?_, ?_⟩
    · simp [triggerDiagnostics, cancelTimeout]
    · intro t ht
      simp [triggerDiagnostics, cancelTimeout] at ht
      simp [triggerDiagnostics, cancelTimeout, ht]
  | t0 :: t1 :: rest, hlen => simp at hlen

/-- Time passing preserves the one-timer invariant. -/
theorem schedInv_fireDue (st : SchedState) (now : Nat) (h : SchedInv st) :
    SchedInv (fireDue st now) := by
  obtain ⟨timers, dt, n, proc⟩ := st
  obtain ⟨hlen, hmem⟩ := h
  cases timers with
  | nil => exact ⟨by simp [fireDue], by simp [fireDue]⟩
  | cons t0 rest =>
    cases rest with
    | cons t1 rest2 => simp at hlen
    | nil =>
      obtain ⟨i, ft, fs⟩ := t0
      by_cases hdue : ft ≤ now
      · rw [fireDue_single_due i ft fs dt n proc now hdue]
        exact ⟨by simp, by simp⟩
      · rw [fireDue_single_notDue i ft fs dt n proc now hdue]
        exact ⟨hlen, hmem⟩

/-- Every scheduler step preserves the one-timer invariant. -/
theorem schedInv_run (evs : List (Nat × SchedEvent)) :
    ∀ st : SchedState, SchedInv st → SchedInv (schedRun st evs) := by
  induction evs with
  | nil => intro st h; exact h
  | cons e rest ih =>
    intro st h
    have h1 : SchedInv (schedStep st e) := by
      obtain ⟨now, ev⟩ := e
      cases ev with
      | trigger files delay =>
        exact schedInv_trigger _ _ _ _ (schedInv_fireDue _ _ h)
      | tick => exact schedInv_fireDue _ _ h
    exact ih _ h1

/-- Firing a timer records its batch with the pending reference already
cleared. -/
theorem procNone_fireTimer (st : SchedState) (t : Timer)
    (h : ∀ x ∈ st.processed, x.1 = none) :
    ∀ x ∈ (fireTimer st t).processed, x.1 = none := by
  intro x hx
  simp only [fireTimer, runDiagnosticsPass, List.mem_append,
    List.mem_singleton] at hx
  rcases hx with hx | hx
  · exact h x hx
  · rw [hx]

/-- Time passing only appends batches recorded with a cleared pending
reference. -/
theorem procNone_foldFire (l : List Timer) :
    ∀ (st : SchedState) (now : Nat), (∀ x ∈ st.processed, x.1 = none) →
    ∀ x ∈ (l.foldl
      (fun acc t => if t.fireTime ≤ now then fireTimer acc t else acc)
      st).processed, x.1 = none := by
  induction l with
  | nil => intro st now h; exact h
  | cons t rest ih =>
    intro st now h
    simp only [List.foldl_cons]
    by_cases hd : t.fireTime ≤ now
    · rw [if_pos hd]
      exact ih _ now (procNone_fireTimer st t h)
    · rw [if_neg hd]
      exact ih _ now h

/-- A trigger call does not touch the processed trace. -/
theorem triggerDiagnostics_processed (st : SchedState) (now : Nat)
    (files : List String) (delay : Nat) :
    (triggerDiagnostics st now files delay).processed = st.processed := by
  cases h : st.diagnosticsTimeout <;>
    simp [triggerDiagnostics, cancelTimeout, h]

/-- Every batch in the processed trace of a run was recorded with a
cleared pending reference. -/
theorem procNone_run (evs : List (Nat × SchedEvent)) :
    ∀ st : SchedState, (∀ x ∈ st.processed, x.1 = none) →
    ∀ x ∈ (schedRun st evs).processed, x.1 = none := by
  induction evs with
  | nil => intro st h; exact h
  | cons e rest ih =>
    intro st h
    have h1 : ∀ x ∈ (schedStep st e).processed, x.1 = none := by
      obtain ⟨now, ev⟩ := e
      cases ev with
      | trigger files delay =>
        rw [schedStep, triggerDiagnostics_processed]
        exact procNone_foldFire st.timers st now h
      | tick => exact procNone_foldFire st.timers st now h
    exact ih _ h1

/-- Trigger-sequence bookkeeping: last outstanding handle, unfolded one
call. -/
theorem lastId_cons (i n : Nat) (c : Nat × List String)
    (rest : List (Nat × List String)) :
    lastId i n (c :: rest) = lastId n (n + 1) rest := by
  cases rest with
  | nil => rfl
  | cons d ds =>
    show n + (ds.length + 1) = (n + 1) + ds.length
    omega

/-- Trigger-sequence bookkeeping: last call time, unfolded one call. -/
theorem lastTime_cons (prev : Nat) (c : Nat × List String)
    (rest : List (Nat × List String)) :
    lastTime prev (c :: rest) = lastTime c.1 rest := rfl

/-- Trigger-sequence bookkeeping: last open-files set, unfolded one
call. -/
theorem lastFiles_cons (files : List String) (c : Nat × List String)
    (rest : List (Nat × List String)) :
    lastFiles files (c :: rest) = lastFiles c.2 rest := rfl

/-- Trigger-sequence bookkeeping: fresh counter, unfolded one call. -/
theorem nextAfter_cons (n : Nat) (c : Nat × List String)
    (rest : List (Nat × List String)) :
    nextAfter n (c :: rest) = nextAfter (n + 1) rest := by
  simp only [nextAfter, List.length_cons]
  omega

/-- A trigger sequence issued strictly inside the delay window of the
pending timer repeatedly supersedes it without any timer firing: the run
ends with exactly the last call's timer outstanding and nothing
processed beyond the initial trace. -/
theorem schedRun_triggers (delay : Nat) (calls : List (Nat × List String)) :
    ∀ (prev i n : Nat) (files : List String)
      (proc : List (Option Nat × List String)),
      withinWindow delay prev calls →
      schedRun ⟨[⟨i, prev + delay, files⟩], some i, n, proc⟩
          (mkTriggers delay calls) =
        ⟨[⟨lastId i n calls, lastTime prev calls + delay,
           lastFiles files calls⟩],
         some (lastId i n calls), nextAfter n calls, proc⟩ := by
  induction calls with
  | nil =>
    intro prev i n files proc _
    simp [schedRun, mkTriggers, lastId, lastTime, lastFiles, nextAfter]
  | cons c rest ih =>
    rintro prev i n files proc ⟨h1, h2, h3⟩
    have hstep :
        schedStep ⟨[⟨i, prev + delay, files⟩], some i, n, proc⟩
            (c.1, SchedEvent.trigger c.2 delay) =
          ⟨[⟨n, c.1 + delay, c.2⟩], some n, n + 1, proc⟩ := by
      show triggerDiagnostics
        (fireDue ⟨[⟨i, prev + delay, files⟩], some i, n, proc⟩ c.1)
        c.1 c.2 delay = _
      rw [fireDue_single_notDue i (prev + delay) files (some i) n proc c.1
        (by omega)]
      simp [triggerDiagnostics, cancelTimeout]
    have hrest := ih c.1 n (n + 1) c.2 proc h3
    calc schedRun ⟨[⟨i, prev + delay, files⟩], some i, n, proc⟩
            (mkTriggers delay (c :: rest))
        = schedRun ⟨[⟨n, c.1 + delay, c.2⟩], some n, n + 1, proc⟩
            (mkTriggers delay rest) := by
          simp only [mkTriggers, List.map_cons, schedRun, List.foldl_cons]
          rw [hstep]
      _ = ⟨[⟨lastId n (n + 1) rest, lastTime c.1 rest + delay,
             lastFiles c.2 rest⟩],
           some (lastId n (n + 1) rest), nextAfter (n + 1) rest, proc⟩ :=
          hrest
      _ = ⟨[⟨lastId i n (c :: rest), lastTime prev (c :: rest) + delay,
             lastFiles files (c :: rest)⟩],
           some (lastId i n (c :: rest)), nextAfter n (c :: rest), proc⟩ := by
          rw [lastId_cons, lastTime_cons, lastFiles_cons, nextAfter_cons]

/-- C2: debounce coalescing. At most one timer is outstanding at any
reachable state; every diagnostics pass observes the pending reference
already cleared; and a burst of trigger calls issued strictly within the
delay window of one another leaves nothing processed and exactly one
timer pending until one delay period after the last call, at which point
exactly the last call's open-files set is processed, exactly once. -/
theorem triggerDiagnostics_debounce :
    (∀ evs : List (Nat × SchedEvent),
      (schedRun initSchedState evs).timers.length ≤ 1) ∧
    (∀ evs : List (Nat × SchedEvent),
      ∀ x ∈ (schedRun initSchedState evs).processed, x.1 = none) ∧
    (∀ (delay t0 : Nat) (f0 : List String)
        (rest : List (Nat × List String)),
      withinWindow delay t0 rest →
      (schedRun initSchedState
          (mkTriggers delay ((t0, f0) :: rest))).processed = [] ∧
      (schedRun initSchedState
          (mkTriggers delay ((t0, f0) :: rest))).timers.length = 1 ∧
      (∀ u, u < lastTime t0 rest + delay →
        (schedRun initSchedState (mkTriggers delay ((t0, f0) :: rest) ++
          [(u, SchedEvent.tick)])).processed = []) ∧
      (schedRun initSchedState (mkTriggers delay ((t0, f0) :: rest) ++
          [(lastTime t0 rest + delay, SchedEvent.tick)])).processed =
        [(none, lastFiles f0 rest)]) := by
  refine ⟨?_, ?_, ?_⟩
  · intro evs
    exact (schedInv_run evs initSchedState schedInv_init).1
  · intro evs
    exact procNone_run evs initSchedState (by simp [initSchedState])
  · intro delay t0 f0 rest hw
    have hfirst : schedStep initSchedState (t0, SchedEvent.trigger f0 delay) =
        ⟨[⟨0, t0 + delay, f0⟩], some 0, 1, []⟩ := rfl
    have hrun : schedRun initSchedState
        (mkTriggers delay ((t0, f0) :: rest)) =
        ⟨[⟨lastId 0 1 rest, lastTime t0 rest + delay, lastFiles f0 rest⟩],
         some (lastId 0 1 rest), nextAfter 1 rest, []⟩ := by
      calc schedRun initSchedState (mkTriggers delay ((t0, f0) :: rest))
          = schedRun ⟨[⟨0, t0 + delay, f0⟩], some 0, 1, []⟩
              (mkTriggers delay rest) := by
            simp only [mkTriggers, List.map_cons, schedRun, List.foldl_cons]
            rw [hfirst]
        _ = ⟨[⟨lastId 0 1 rest, lastTime t0 rest + delay, lastFiles f0 rest⟩],
             some (lastId 0 1 rest), nextAfter 1 rest, []⟩ :=
            schedRun_triggers delay rest t0 0 1 f0 [] hw
    refine ⟨by rw [hrun], by rw [hrun]; rfl, ?_, ?_⟩
    · intro u hu
      rw [schedRun_append, hrun]
      show (fireDue ⟨[⟨lastId 0 1 rest, lastTime t0 rest + delay,
        lastFiles f0 rest⟩], some (lastId 0 1 rest), nextAfter 1 rest, []⟩
        u).processed = []
      rw [fireDue_single_notDue _ _ _ _ _ _ _ (by omega)]
    · rw [schedRun_append, hrun]
      show (fireDue ⟨[⟨lastId 0 1 rest, lastTime t0 rest + delay,
        lastFiles f0 rest⟩], some (lastId 0 1 rest), nextAfter 1 rest, []⟩
        (lastTime t0 rest + delay)).processed = [(none, lastFiles f0 rest)]
      rw [fireDue_single_due _ _ _ _ _ _ _ (Nat.le_refl _)]
      rfl

/-- C2 witness: two trigger calls 100ms apart with the default 200ms delay
process only the second call's file set, once, 200ms after the second
call. -/
theorem triggerDiagnostics_debounce_witness :
    (schedRun initSchedState (mkTriggers 200 [(0, ["/a.ts"]), (100, ["/b.ts"])] ++
      [(300, SchedEvent.tick)])).processed = [(none, ["/b.ts"])] := by
  exact (triggerDiagnostics_debounce.2.2 200 0 ["/a.ts"] [(100, ["/b.ts"])]
    ⟨by decide, by decide, trivial⟩).2.2.2

/-- Unfolding one step of the loading state machine run. -/
theorem runConn_cons (s : ConnState) (e : ConnEvent) (es : List ConnEvent) :
    runConn s (e :: es) =
      ((runConn (stepConn s e).1 es).1,
       (stepConn s e).2 ++ (runConn (stepConn s e).1 es).2) := rfl

theorem runConn_finish_le (es : List ConnEvent) :
    ∀ s : ConnState,
      (runConn s es).2.count LoadingNotif.finish ≤
        (runConn s es).2.count LoadingNotif.start +
          (if s.isProjectLoading then 1 else 0) := by
  induction es with
  | nil => intro s; simp [runConn]
  | cons e rest ih =>
    intro s
    rw [runConn_cons]
    cases e with
    | projectLoadingStart =>
      have h := ih ⟨true⟩
      rw [show stepConn s ConnEvent.projectLoadingStart =
        (⟨true⟩, [LoadingNotif.start]) from rfl]
      simp only
      simp at h ⊢
      omega
    | projectLoadingFinish b =>
      by_cases hs : s.isProjectLoading
      · have h := ih ⟨false⟩
        rw [show stepConn s (ConnEvent.projectLoadingFinish b) =
          (⟨false⟩, [LoadingNotif.finish]) by simp [stepConn, hs]]
        simp only
        simp [hs] at h ⊢
        omega
      · have h := ih s
        rw [show stepConn s (ConnEvent.projectLoadingFinish b) = (s, []) by
          simp [stepConn, hs]]
        simp only
        simpa using h
    | projectsUpdatedInBackground fs =>
      have h := ih s
      rw [show stepConn s (ConnEvent.projectsUpdatedInBackground fs) = (s, []) from rfl]
      simp only
      simpa using h
    | didOpenThrows =>
      by_cases hs : s.isProjectLoading
      · have h := ih ⟨false⟩
        rw [show stepConn s ConnEvent.didOpenThrows =
          (⟨false⟩, [LoadingNotif.finish]) by simp [stepConn, hs]]
        simp only
        simp [hs] at h ⊢
        omega
      · have h := ih s
        rw [show stepConn s ConnEvent.didOpenThrows = (s, []) by
          simp [stepConn, hs]]
        simp only
        simpa using h
    | didOpenOk =>
      have h := ih s
      rw [show stepConn s ConnEvent.didOpenOk = (s, []) from rfl]
      simp only
      simpa using h

theorem runConn_wf (es : List ConnEvent) :
    ∀ (s : ConnState) (b : Bool),
      (s.isProjectLoading = true → b = true) → WellFormed b es →
      (runConn s es).1.isProjectLoading = false ∧
      (runConn s es).2.count LoadingNotif.finish =
        (runConn s es).2.count LoadingNotif.start +
          (if s.isProjectLoading then 1 else 0) := by
  induction es with
  | nil =>
    intro s b hsb hwf
    have hb : b = false := hwf
    have hs : s.isProjectLoading = false := by
      cases hflag : s.isProjectLoading
      · rfl
      · rw [hsb hflag] at hb
        exact absurd hb (by simp)
    exact ⟨hs, by simp [runConn, hs]⟩
  | cons e rest ih =>
    intro s b hsb hwf
    rw [runConn_cons]
    cases e with
    | projectLoadingStart =>
      obtain ⟨hb, hwf1⟩ := hwf
      have hs : s.isProjectLoading = false := by
        cases hflag : s.isProjectLoading
        · rfl
        · rw [hsb hflag] at hb
          exact absurd hb (by simp)
      obtain ⟨h1, h2⟩ := ih ⟨true⟩ true (fun _ => rfl) hwf1
      rw [show stepConn s ConnEvent.projectLoadingStart =
        (⟨true⟩, [LoadingNotif.start]) from rfl]
      refine ⟨h1, ?_⟩
      simp only
      simp [hs]
      simp at h2
      omega
    | projectLoadingFinish bThrows =>
      obtain ⟨hb, hwf1⟩ := hwf
      by_cases hs : s.isProjectLoading
      · obtain ⟨h1, h2⟩ := ih ⟨false⟩ false (by simp) hwf1
        rw [show stepConn s (ConnEvent.projectLoadingFinish bThrows) =
          (⟨false⟩, [LoadingNotif.finish]) by simp [stepConn, hs]]
        refine ⟨h1, ?_⟩
        simp only
        simp [hs]
        simp at h2
        omega
      · obtain ⟨h1, h2⟩ := ih s false (by simp [hs]) hwf1
        rw [show stepConn s (ConnEvent.projectLoadingFinish bThrows) = (s, []) by
          simp [stepConn, hs]]
        refine ⟨h1, ?_⟩
        simp only
        simp [hs]
        simp [hs] at h2
        omega
    | projectsUpdatedInBackground fs =>
      obtain ⟨h1, h2⟩ := ih s b hsb hwf
      rw [show stepConn s (ConnEvent.projectsUpdatedInBackground fs) = (s, []) from rfl]
      exact ⟨h1, by simpa using h2⟩
    | didOpenThrows =>
      by_cases hs : s.isProjectLoading
      · have hbtrue : b = true := hsb hs
        subst hbtrue
        obtain ⟨h1, h2⟩ := ih ⟨false⟩ true (by simp) hwf
        rw [show stepConn s ConnEvent.didOpenThrows =
          (⟨false⟩, [LoadingNotif.finish]) by simp [stepConn, hs]]
        refine ⟨h1, ?_⟩
        simp only
        simp [hs]
        simp at h2
        omega
      · obtain ⟨h1, h2⟩ := ih s b hsb hwf
        rw [show stepConn s ConnEvent.didOpenThrows = (s, []) by
          simp [stepConn, hs]]
        refine ⟨h1, ?_⟩
        simp only
        simp [hs]
        simp [hs] at h2
        omega
    | didOpenOk =>
      obtain ⟨h1, h2⟩ := ih s b hsb hwf
      rw [show stepConn s ConnEvent.didOpenOk = (s, []) from rfl]
      exact ⟨h1, by simpa using h2⟩

/-- The loading state machine over a concatenation: the suffix runs from
the prefix's final state and the notification trace is the
concatenation. -/
theorem runConn_append (es1 : List ConnEvent) :
    ∀ (es2 : List ConnEvent) (s : ConnState),
      runConn s (es1 ++ es2) =
        ((runConn (runConn s es1).1 es2).1,
         (runConn s es1).2 ++ (runConn (runConn s es1).1 es2).2) := by
  induction es1 with
  | nil => intro es2 s; simp [runConn]
  | cons e rest ih =>
    intro es2 s
    rw [List.cons_append, runConn_cons, runConn_cons, ih]
    simp [List.append_assoc]

/-- C1: notification pairing. Over any engine-well-formed event sequence
the bridge emits exactly as many finish as start notifications and ends
with the loading flag cleared; over any sequence at all, finishes never
outnumber starts (so each finish comes after its start, by the prefix
decomposition also proved here); the finish behaviour is identical whether
or not the gatekeeper check throws; a finish event or a throwing
open-document handler while the flag is set emits exactly one finish
notification and resets the flag; and a finish notification is only ever
emitted with the flag set, and resets it. -/
theorem projectLoading_pairing :
    (∀ es, WellFormed false es →
      (runConn ⟨false⟩ es).2.count LoadingNotif.finish =
        (runConn ⟨false⟩ es).2.count LoadingNotif.start ∧
      (runConn ⟨false⟩ es).1.isProjectLoading = false) ∧
    (∀ es, (runConn ⟨false⟩ es).2.count LoadingNotif.finish ≤
      (runConn ⟨false⟩ es).2.count LoadingNotif.start) ∧
    (∀ es1 es2 s, runConn s (es1 ++ es2) =
      ((runConn (runConn s es1).1 es2).1,
       (runConn s es1).2 ++ (runConn (runConn s es1).1 es2).2)) ∧
    (∀ s b1 b2, stepConn s (ConnEvent.projectLoadingFinish b1) =
      stepConn s (ConnEvent.projectLoadingFinish b2)) ∧
    (∀ s b, s.isProjectLoading = true →
      stepConn s (ConnEvent.projectLoadingFinish b) =
        (⟨false⟩, [LoadingNotif.finish])) ∧
    (∀ s, s.isProjectLoading = true →
      stepConn s ConnEvent.didOpenThrows = (⟨false⟩, [LoadingNotif.finish])) ∧
    (∀ s e, LoadingNotif.finish ∈ (stepConn s e).2 →
      s.isProjectLoading = true ∧ (stepConn s e).1.isProjectLoading = false) := by
  refine ⟨?_, ?_, ?_, ?_, ?_, ?_, ?_⟩
  · intro es hwf
    obtain ⟨h1, h2⟩ := runConn_wf es ⟨false⟩ false (by simp) hwf
    refine ⟨?_, h1⟩
    simpa using h2
  · intro es
    have h := runConn_finish_le es ⟨false⟩
    simpa using h
  · intro es1 es2 s
    exact runConn_append es1 es2 s
  · intro s b1 b2
    rfl
  · intro s b hs
    simp [stepConn, hs]
  · intro s hs
    simp [stepConn, hs]
  · intro s e hmem
    cases e with
    | projectLoadingStart => simp [stepConn] at hmem
    | projectLoadingFinish b =>
      by_cases hs : s.isProjectLoading
      · exact ⟨hs, by simp [stepConn, hs]⟩
      · simp [stepConn, hs] at hmem
    | projectsUpdatedInBackground fs => simp [stepConn] at hmem
    | didOpenThrows =>
      by_cases hs : s.isProjectLoading
      · exact ⟨hs, by simp [stepConn, hs]⟩
      · simp [stepConn, hs] at hmem
    | didOpenOk => simp [stepConn] at hmem

/-- C1 witness: a start event followed by a finish event whose gatekeeper
check throws yields the paired trace `[start, finish]` with the flag
cleared; a start followed by a throwing open-document handler and a late
engine finish also yields exactly one finish. -/
theorem projectLoading_pairing_witness :
    (runConn ⟨false⟩ [ConnEvent.projectLoadingStart,
      ConnEvent.projectLoadingFinish true]).2.count LoadingNotif.finish =
      (runConn ⟨false⟩ [ConnEvent.projectLoadingStart,
        ConnEvent.projectLoadingFinish true]).2.count LoadingNotif.start ∧
    (runConn ⟨false⟩ [ConnEvent.projectLoadingStart, ConnEvent.didOpenThrows,
      ConnEvent.projectLoadingFinish false]).2.count LoadingNotif.finish =
      (runConn ⟨false⟩ [ConnEvent.projectLoadingStart, ConnEvent.didOpenThrows,
        ConnEvent.projectLoadingFinish false]).2.count LoadingNotif.start := by
  constructor
  · exact (projectLoading_pairing.1 [ConnEvent.projectLoadingStart,
      ConnEvent.projectLoadingFinish true] ⟨rfl, rfl, rfl⟩).1
  · exact (projectLoading_pairing.1 [ConnEvent.projectLoadingStart,
      ConnEvent.didOpenThrows, ConnEvent.projectLoadingFinish false]
      ⟨rfl, rfl, rfl⟩).1

/-- Converting an in-bounds offset to a (line, column) pair and back is the
identity. -/
theorem posToOffset_offsetToPos (text : DocText) :
    ∀ o : Nat, o ≤ text.length →
      posToOffset text (offsetToPos text o).1 (offsetToPos text o).2 = o := by
  induction text with
  | nil =>
    intro o ho
    have ho0 : o = 0 := Nat.le_zero.mp (by simpa using ho)
    subst ho0
    rfl
  | cons ch rest ih =>
    intro o ho
    cases o with
    | zero => rfl
    | succ o1 =>
      have ho1 : o1 ≤ rest.length := by simpa using ho
      have hIH := ih o1 ho1
      by_cases hch : ch = '\n'
      · have hpos : offsetToPos (ch :: rest) (Nat.succ o1) =
            ((offsetToPos rest o1).1 + 1, (offsetToPos rest o1).2) := by
          simp [offsetToPos, hch]
        rw [hpos]
        show (if ch = '\n'
          then 1 + posToOffset rest (offsetToPos rest o1).1 (offsetToPos rest o1).2
          else 1 + posToOffset rest ((offsetToPos rest o1).1 + 1) (offsetToPos rest o1).2) = Nat.succ o1
        rw [if_pos hch, hIH]
        omega
      · cases hline : (offsetToPos rest o1).1 with
        | zero =>
          have hpos : offsetToPos (ch :: rest) (Nat.succ o1) =
              (0, (offsetToPos rest o1).2 + 1) := by
            simp [offsetToPos, hch, hline]
          rw [hpos]
          show (offsetToPos rest o1).2 + 1 = Nat.succ o1
          rw [hline] at hIH
          have hcol : (offsetToPos rest o1).2 = o1 := by
            simpa [posToOffset] using hIH
          omega
        | succ l =>
          have hpos : offsetToPos (ch :: rest) (Nat.succ o1) =
              offsetToPos rest o1 := by
            simp [offsetToPos, hch, hline]
          rw [hpos, hline]
          show (if ch = '\n'
            then 1 + posToOffset rest l (offsetToPos rest o1).2
            else 1 + posToOffset rest (Nat.succ l) (offsetToPos rest o1).2) = Nat.succ o1
          rw [if_neg hch]
          rw [hline] at hIH
          rw [hIH]
          omega

/-- C9: the position codec's two directions are exact inverses over the
full valid domain `0 ≤ o ≤ length text`, both as raw text functions and as
applied to a script info through span conversion; and a span anchored at an
unresolvable script info maps to the fixed zero-width range at the document
origin. -/
theorem position_codec_roundTrip :
    (∀ (text : DocText) (o : Nat), o ≤ text.length →
      posToOffset text (offsetToPos text o).1 (offsetToPos text o).2 = o) ∧
    (∀ (si : ScriptInfo) (o : Nat), o ≤ si.text.length →
      lspPositionToTsPosition si
        (tsTextSpanToLspRange si { start := o, length := 0 }).start = o) ∧
    (∀ span : TextSpan, tsTextSpanToLspRangeOpt none span = EMPTY_RANGE) := by
  refine ⟨?_, ?_, ?_⟩
  · intro text o ho
    exact posToOffset_offsetToPos text o ho
  · intro si o ho
    show posToOffset si.text (offsetToPos si.text o).1 (offsetToPos si.text o).2 = o
    exact posToOffset_offsetToPos si.text o ho
  · intro span
    rfl

/-- C9 witness: the round trip at a concrete two-line text and the
fallback range at a concrete span. -/
theorem position_codec_roundTrip_witness :
    posToOffset ['a', 'b', '\n', 'c']
      (offsetToPos ['a', 'b', '\n', 'c'] 4).1
      (offsetToPos ['a', 'b', '\n', 'c'] 4).2 = 4 ∧
    tsTextSpanToLspRangeOpt none { start := 7, length := 3 } = EMPTY_RANGE := by
  constructor
  · exact position_codec_roundTrip.1 ['a', 'b', '\n', 'c'] 4 (by decide)
  · exact position_codec_roundTrip.2.2 { start := 7, length := 3 }

end DenoLsp
